import Mathlib

/-!
Shallow embedding of the Budget-Analyzer engine (`src/Code/main.py`).

Conventions used throughout:
* Python strings are Lean `String`s; file contents are passed in as values,
  so functions that read files take the already-read data as arguments.
* Monetary amounts are modelled as exact rationals (`ℚ`); the Python source
  uses binary floating point, whose rounding is not modelled.
* A Python crash (uncaught exception) or `sys.exit(1)` is modelled by an
  `Option`/`Except` failure value; the distinct constructors of `PyErr`
  record which exit path fired.
* The regular-expression engine is external to the program; pattern
  matching is therefore a parameter `mfn : String → String → Bool`
  (pattern source string → location → matched?).  The one regex that the
  program itself hard-codes, `[1-9]+[0-9]*` used by `findall` on
  filenames, is embedded concretely below (`findIntRuns`).
-/

/-- Maximal run of decimal digits at the head of a character list, paired
with the remaining characters.  Used to embed `re.findall` for the pattern
`[1-9]+[0-9]*`: a match is a maximal digit run that starts with a nonzero
digit. -/
def takeDigitRun (cs : List Char) : List Char × List Char :=
  (cs.takeWhile Char.isDigit, cs.dropWhile Char.isDigit)

theorem length_dropWhile_le' {α} (p : α → Bool) (l : List α) :
    (l.dropWhile p).length ≤ l.length := by
  induction l with
  | nil => simp [List.dropWhile]
  | cons a l ih =>
    simp only [List.dropWhile]
    cases p a
    · simp
    · simp only [List.length_cons]
      omega

/-- Embedding of `AccountExpenseHistory.p.findall` where
`p = re.compile("[1-9]+[0-9]*")`: scan left to right; at a character in
`'1'..'9'` the (greedy, non-overlapping) match is the maximal digit run
starting there; other characters are skipped.  The fuel argument only
bounds the recursion; every call consumes at least one character, so a
fuel of the list's length never runs out (see `findRunsAux_fuel`). -/
def findRunsAux : ℕ → List Char → List String
  | _, [] => []
  | 0, _ :: _ => []
  | fuel + 1, c :: cs =>
    if '1' ≤ c ∧ c ≤ '9' then
      let r := takeDigitRun cs
      String.mk (c :: r.1) :: findRunsAux fuel r.2
    else
      findRunsAux fuel cs

/-- The fuel argument of `findRunsAux` is immaterial as long as it is at
least the length of the character list. -/
theorem findRunsAux_fuel (fuel fuel' : ℕ) (l : List Char)
    (h : l.length ≤ fuel) (h' : l.length ≤ fuel') :
    findRunsAux fuel l = findRunsAux fuel' l := by
  induction fuel generalizing fuel' l with
  | zero =>
    match l, fuel' with
    | [], 0 => rfl
    | [], _ + 1 => rfl
    | _ :: _, _ => simp at h
  | succ fuel ih =>
    match l, fuel' with
    | [], 0 => rfl
    | [], _ + 1 => rfl
    | c :: cs, 0 => simp at h'
    | c :: cs, f' + 1 =>
      simp only [findRunsAux]
      have hd := length_dropWhile_le' Char.isDigit cs
      simp only [List.length_cons] at h h'
      split
      · simp only [takeDigitRun]
        rw [ih f' (cs.dropWhile Char.isDigit) (by omega) (by omega)]
      · rw [ih f' cs (by omega) (by omega)]

/-- All matches of `[1-9]+[0-9]*` in a string, in order. -/
def findIntRuns (s : String) : List String :=
  findRunsAux s.data.length s.data

/-- Numeric value of a digit list read as a decimal numeral. -/
def digitsToNat (cs : List Char) : ℕ :=
  cs.foldl (fun n c => 10 * n + (c.toNat - '0'.toNat)) 0

/-- Numeric value of a digit run (Python `int(run)`); runs produced by
`findIntRuns` are nonempty digit strings, on which this agrees with
Python's `int`. -/
def runToNat (s : String) : ℕ :=
  digitsToNat s.data

/-- The decimal digit characters. -/
def digitChar : ℕ → Char
  | 0 => '0'
  | 1 => '1'
  | 2 => '2'
  | 3 => '3'
  | 4 => '4'
  | 5 => '5'
  | 6 => '6'
  | 7 => '7'
  | 8 => '8'
  | 9 => '9'
  | _ => '?'

/-- Decimal digits of a natural number (most significant first); the fuel
argument only bounds the recursion and `n + 1` always suffices. -/
def natDigitsAux : ℕ → ℕ → List Char
  | 0, _ => []
  | fuel + 1, n =>
    if n < 10 then [digitChar n] else natDigitsAux fuel (n / 10) ++ [digitChar (n % 10)]

/-- Decimal string form of a natural number (Python `str` on a
non-negative `int`). -/
def natToString (n : ℕ) : String :=
  String.mk (natDigitsAux (n + 1) n)

/-- Year/month extraction from one filename: `y, m = map(int, p.findall(file))`.
`none` models the fatal path taken when the filename does not contain
exactly two integer runs (`sys.exit(1)` in `audit_for_missing_data`,
an uncaught `ValueError` in `extract_dates`). -/
def extractYM (f : String) : Option (ℕ × ℕ) :=
  match findIntRuns f with
  | [a, b] => some (runToNat a, runToNat b)
  | _ => none

/-- Embedding of `"{}_{:02d}".format(y, m)`: the year in decimal, an
underscore, and the month zero-padded to two digits. -/
def formatDate (y m : ℕ) : String :=
  natToString y ++ "_" ++ (if m < 10 then "0" ++ natToString m else natToString m)

/-- The canonical `YYYY_MM` string form of a MonthKey as the specification
words it: `Y`, an underscore, and `M` zero-padded to two digits
(the f-string `{Y}_{M:02d}`).  Stated separately from `formatDate` so the
code's formatting can be compared against the spec's. -/
def specCanonicalMonthKey (y m : ℕ) : String :=
  natToString y ++ "_" ++ (if m < 10 then "0" ++ natToString m else natToString m)

/-- Embedding of `AccountExpenseHistory.extract_dates`: derive one date
string per file; `none` models the uncaught unpacking error when some
filename lacks exactly two integer runs. -/
def extract_dates (files : List String) : Option (List String) :=
  files.mapM (fun f => (extractYM f).map (fun p => formatDate p.1 p.2))

/-- Successor month: December rolls over to January of the next year. -/
def specNext (p : ℕ × ℕ) : ℕ × ℕ :=
  if p.2 = 12 then (p.1 + 1, 1) else (p.1, p.2 + 1)

/-- Loop body of `audit_for_missing_data`: `p0` is the expected previous
month; each file's (year, month) must equal `specNext p0` or the audit
reports `true` at once.  `none` models the `sys.exit(1)` taken when a
filename lacks exactly two integer runs. -/
def auditLoop : ℕ × ℕ → List String → Option Bool
  | _, [] => some false
  | p0, f :: rest =>
    match extractYM f with
    | none => none
    | some p =>
      let nxt := specNext p0
      if p ≠ nxt then some true else auditLoop nxt rest

/-- Embedding of `AccountExpenseHistory.audit_for_missing_data` over the
sorted file list: an empty list reports `true`; otherwise the first file
seeds the expected (year, month) and the loop walks the rest. -/
def audit_for_missing_data (files : List String) : Option Bool :=
  match files with
  | [] => some true
  | f0 :: rest =>
    match extractYM f0 with
    | none => none
    | some p0 => auditLoop p0 rest

/-- Exit paths of the Python program that the embedding distinguishes.
`configFormatExit` is the controlled "print a diagnostic and `sys.exit(1)`"
path; `indexError` and `valueError` are uncaught exceptions;
`stopIteration` is the uncaught exception raised by `next()` on an
exhausted iterator. -/
inductive PyErr where
  | indexError
  | valueError
  | configFormatExit
  | stopIteration
deriving DecidableEq, Repr

instance {ε α : Type} [DecidableEq ε] [DecidableEq α] : DecidableEq (Except ε α) := fun x y =>
  match x, y with
  | .error a, .error b =>
    if h : a = b then isTrue (by rw [h]) else isFalse (by simp [h])
  | .ok a, .ok b =>
    if h : a = b then isTrue (by rw [h]) else isFalse (by simp [h])
  | .error _, .ok _ => isFalse (by simp)
  | .ok _, .error _ => isFalse (by simp)

/-- One entry of `regex_category_dict`: the compiled pattern (identified by
its source string, as `re.compile`'s cache identifies equal pattern
strings) mapped to a category label. -/
structure Rule where
  pat : String
  cat : String
deriving DecidableEq, Repr

/-- Python `dict` insertion on an association list: an existing key keeps
its position and gets the new value; a new key is appended. -/
def dictInsert {β : Type} (l : List (String × β)) (k : String) (v : β) : List (String × β) :=
  if l.any (fun q => q.1 = k) then
    l.map (fun q => if q.1 = k then (k, v) else q)
  else
    l ++ [(k, v)]

/-- Python `dict` insertion for `regex_category_dict`, keyed by the pattern
string. -/
def rulesInsert (l : List Rule) (k : String) (v : String) : List Rule :=
  if l.any (fun r => r.pat = k) then
    l.map (fun r => if r.pat = k then ⟨k, v⟩ else r)
  else
    l ++ [⟨k, v⟩]

/-- Model of Python `float()` on ordinary decimal strings: an optional
sign, an integer part, and an optional fractional part after a dot
(at least one digit overall); `none` models the `ValueError` raised on
anything else.  Exponent and special forms accepted by Python are not
needed by any claim and are not modelled. -/
def parseDecimal (s : String) : Option ℚ :=
  let signed : ℚ × List Char :=
    match s.data with
    | '-' :: cs => (-1, cs)
    | '+' :: cs => (1, cs)
    | cs => (1, cs)
  let intPart := signed.2.takeWhile Char.isDigit
  let rest := signed.2.dropWhile Char.isDigit
  match rest with
  | [] =>
    if intPart.isEmpty then none
    else some (signed.1 * (digitsToNat intPart : ℚ))
  | '.' :: frac =>
    if frac.all Char.isDigit ∧ ¬(intPart.isEmpty ∧ frac.isEmpty) then
      some (signed.1 * ((digitsToNat intPart : ℚ) + (digitsToNat frac : ℚ) / (10 ^ frac.length)))
    else none
  | _ => none

/-- Whitespace characters removed by Python's `str.strip`. -/
def isPySpace (c : Char) : Bool :=
  c = ' ' || c = '\t' || c = '\n' || c = '\r' || c = '\x0b' || c = '\x0c'

/-- Embedding of Python `str.strip`: remove leading and trailing
whitespace. -/
def pyStrip (s : String) : String :=
  String.mk (((s.data.dropWhile isPySpace).reverse.dropWhile isPySpace).reverse)

/-- Split a character list on every occurrence of the delimiter, keeping
empty groups (Python `str.split` with an explicit separator). -/
def splitOnChar (d : Char) : List Char → List (List Char)
  | [] => [[]]
  | c :: cs =>
    if c = d then
      [] :: splitOnChar d cs
    else
      match splitOnChar d cs with
      | [] => [[c]]
      | g :: gs => (c :: g) :: gs

/-- The field list of one configuration line:
`line.strip().split("\t")`. -/
def splitFields (line : String) : List String :=
  (splitOnChar '\t' (pyStrip line).data).map String.mk

/-- Accumulated state of `read_config`'s line loop: the ordered
`regex_category_dict` and the `limits_for_categories` mapping. -/
structure ConfigState where
  rules : List Rule
  limits : List (String × ℚ)
deriving DecidableEq, Repr

/-- Processing of one configuration line by `read_config`: strip and split
on tabs; read the regex at index 2 and the category at index 0 (a missing
index 2 is the uncaught `IndexError` — the `except ValueError` clause
never fires for indexing); reject the reserved labels "Total" and "Misc"
with the controlled exit; register the rule; a line of exactly three
fields additionally parses field 1 as the category's budget limit (an
unparseable limit is an uncaught `ValueError`). -/
def readConfigLine (st : ConfigState) (line : String) : Except PyErr ConfigState :=
  let fields := splitFields line
  match fields.get? 2, fields.get? 0 with
  | some regex, some category =>
    if category = "Total" ∨ category = "Misc" then
      .error .configFormatExit
    else
      let st' : ConfigState := { st with rules := rulesInsert st.rules regex category }
      if fields.length = 3 then
        match parseDecimal (fields.getD 1 "") with
        | some limit => .ok { st' with limits := dictInsert st'.limits category limit }
        | none => .error .valueError
      else
        .ok st'
  | _, _ => .error .indexError

/-- The line loop of `read_config`, stopping at the first failing line. -/
def readConfigLines : ConfigState → List String → Except PyErr ConfigState
  | st, [] => .ok st
  | st, line :: rest =>
    match readConfigLine st line with
    | .error e => .error e
    | .ok st' => readConfigLines st' rest

/-- Embedding of `ExpenseHistoryAnalyzer.read_config`: fold the line loop
over the configuration lines and finally register the externally supplied
total limit under "Total". -/
def read_config (lines : List String) (targetTotalLimit : ℚ) :
    Except PyErr (List Rule × List (String × ℚ)) :=
  match readConfigLines ⟨[], []⟩ lines with
  | .error e => .error e
  | .ok st => .ok (st.rules, dictInsert st.limits "Total" targetTotalLimit)

/-- String comparison by code points (lexicographic order on the
character list), the order Python's `sort()` uses on `str`. -/
def strLe (a b : String) : Prop :=
  a.data ≤ b.data

instance : DecidableRel strLe := fun a b =>
  inferInstanceAs (Decidable (a.data ≤ b.data))

instance : IsTotal String strLe :=
  ⟨fun a b => le_total a.data b.data⟩

instance : IsTrans String strLe :=
  ⟨fun _ _ _ hab hbc => le_trans hab hbc⟩

/-- Embedding of `ExpenseHistoryAnalyzer.find_date_range_intersection`:
`next()` on an empty account collection raises `StopIteration` (modelled
by `none`); otherwise the first account's date set is intersected with
each remaining account's date set and the result is sorted.  A Python
`set` is modelled by a duplicate-free list; `sorted(list(s))` is the
sorted enumeration of its members. -/
def find_date_range_intersection (accounts : List (List String)) : Option (List String) :=
  match accounts with
  | [] => none
  | a :: rest =>
    some (List.insertionSort strLe
      (rest.foldl (fun s acc => s.filter (fun d => decide (d ∈ acc))) a.dedup))

/-- Embedding of `ExpenseHistoryAnalyzer.find_date_range_union`: the union
of all accounts' date sets, sorted.  The union of the member sets is the
duplicate-free list of all dates occurring in any account. -/
def find_date_range_union (accounts : List (List String)) : List String :=
  List.insertionSort strLe ((accounts.foldl (fun s acc => s ++ acc) []).dedup)

/-- One entry of the regex-collision report: the configuration identifier,
the offending location, and every matched category, as written by
`categorize_history` to `output_path_regex_collisions`. -/
structure Collision where
  config : String
  location : String
  cats : List String
deriving DecidableEq, Repr

/-- Mutable state of `categorize_history`: the `category_expenses` mapping
(category label to monthly totals), the deduplicated
`uncategorized_locations` set, and the append-only collision report. -/
structure CatState where
  buckets : String → List ℚ
  uncat : List String
  collisions : List Collision

/-- The `category_expenses` initialisation: every label of `categories`
is mapped to a zero list of the date axis's length; other labels are
absent (modelled as the empty list, which no reachable lookup hits). -/
def initBuckets (cats : List String) (n : ℕ) : String → List ℚ :=
  cats.foldl (fun b c => fun x => if x = c then List.replicate n 0 else b x) (fun _ => [])

/-- All categories whose pattern matches the location, in rule order:
the loop `for regex in self.regex_category_dict.keys()` collecting
`regex_category_dict[regex]` for each match. -/
def classify (rules : List Rule) (mfn : String → String → Bool) (loc : String) : List String :=
  (rules.filter (fun r => mfn r.pat loc)).map (fun r => r.cat)

/-- Add `e` to bucket `c` at month index `i`
(`category_expenses[c][i] += e`). -/
def addAt (b : String → List ℚ) (c : String) (i : ℕ) (e : ℚ) : String → List ℚ :=
  fun x => if x = c then (b c).set i ((b c).getD i 0 + e) else b x

/-- Processing of one `(expense, location)` record by `categorize_history`:
collect all matching categories; more than one match appends one collision
entry; no match selects "Misc" and records the location in the
deduplicated uncategorized set; otherwise the first matched category is
selected; the amount is added to the selected bucket and to "Total" at the
current month index. -/
def stepRecord (cfgPath : String) (rules : List Rule) (mfn : String → String → Bool)
    (i : ℕ) (st : CatState) (rec : ℚ × String) : CatState :=
  let cats := classify rules mfn rec.2
  let st1 := if 1 < cats.length then
      { st with collisions := st.collisions ++ [⟨cfgPath, rec.2, cats⟩] }
    else st
  match cats with
  | [] =>
    let st2 := { st1 with uncat := st1.uncat.insert rec.2 }
    { st2 with buckets := addAt (addAt st2.buckets "Misc" i rec.1) "Total" i rec.1 }
  | c :: _ =>
    { st1 with buckets := addAt (addAt st1.buckets c i rec.1) "Total" i rec.1 }

/-- The cursor advance `while self.dates[data_idx] != date: data_idx += 1`:
the first index `j ≥ i` with `dates[j] = date`; `none` models the
`IndexError` raised when the cursor runs past the end of the axis. -/
def findFromAux (dates : List String) (date : String) : ℕ → ℕ → Option ℕ
  | _, 0 => none
  | i, fuel + 1 =>
    match dates.get? i with
    | none => none
    | some d => if d = date then some i else findFromAux dates date (i + 1) fuel

/-- Entry point of the cursor advance: at most `dates.length - i` further
probes can succeed, and one more probe past the end yields the
`IndexError`, so that much fuel is exact. -/
def findFrom (dates : List String) (date : String) (i : ℕ) : Option ℕ :=
  findFromAux dates date i (dates.length + 1 - i)

/-- The month loop of `categorize_history`: months absent from the date
axis are skipped; for months present, the cursor is advanced to the
matching axis index and every record of the month is processed there. -/
def stepMonths (cfgPath : String) (rules : List Rule) (mfn : String → String → Bool)
    (dates : List String) :
    List (String × List (ℚ × String)) → ℕ → CatState → Option CatState
  | [], _, st => some st
  | (date, recs) :: rest, dIdx, st =>
    if date ∈ dates then
      match findFrom dates date dIdx with
      | none => none
      | some j => stepMonths cfgPath rules mfn dates rest j
          (recs.foldl (stepRecord cfgPath rules mfn j) st)
    else
      stepMonths cfgPath rules mfn dates rest dIdx st

/-- The category list of the analyzer: the user categories in
`regex_category_dict` order with "Misc" and "Total" appended. -/
def analyzerCategories (rules : List Rule) : List String :=
  rules.map (fun r => r.cat) ++ ["Misc", "Total"]

/-- Embedding of `ExpenseHistoryAnalyzer.categorize_history` for one
account.  An account's parallel `dates`/`expenses` fields (built by one
map over the same file list, hence of equal length) are modelled zipped
into one list of (month, records) pairs. -/
def categorize_history (cfgPath : String) (rules : List Rule)
    (mfn : String → String → Bool) (dates : List String)
    (account : List (String × List (ℚ × String))) : Option CatState :=
  stepMonths cfgPath rules mfn dates account 0
    ⟨initBuckets (analyzerCategories rules) dates.length, [], []⟩

/-- An `AccountExpenseHistory` as the analyzer consumes it: its label and
the zipped (month, records) sequence. -/
structure Account where
  label : String
  months : List (String × List (ℚ × String))

/-- The analyzer state produced by `ExpenseHistoryAnalyzer.__init__`:
per-account categorization results, the reconciled date axis, the rule
set, and the category limits. -/
structure AnalyzerData where
  data : List (String × CatState)
  dates : List String
  rules : List Rule
  limits : List (String × ℚ)

/-- Per-account categorization loop of the constructor
(`for account in accounts.values(): ... categorize_history`), with the
cursor overflow lifted to `PyErr.indexError`. -/
def categorizeAccounts (cfgPath : String) (rules : List Rule)
    (mfn : String → String → Bool) (dates : List String) :
    List Account → Except PyErr (List (String × CatState))
  | [] => .ok []
  | a :: rest =>
    match categorize_history cfgPath rules mfn dates a.months with
    | none => .error .indexError
    | some st =>
      match categorizeAccounts cfgPath rules mfn dates rest with
      | .error e => .error e
      | .ok l => .ok ((a.label, st) :: l)

/-- Embedding of `ExpenseHistoryAnalyzer.__init__`: read the configuration
first; then compute the date axis (intersection or union of the accounts'
month lists); then categorize every account.  Any earlier failure
prevents every later step, so a configuration failure happens before any
account data is touched. -/
def analyzerInit (configLines : List String) (targetTotalLimit : ℚ)
    (mfn : String → String → Bool) (intersect : Bool) (cfgPath : String)
    (accounts : List Account) : Except PyErr AnalyzerData :=
  match read_config configLines targetTotalLimit with
  | .error e => .error e
  | .ok (rules, limits) =>
    let datesOpt : Except PyErr (List String) :=
      if intersect then
        match find_date_range_intersection (accounts.map (fun a => a.months.map Prod.fst)) with
        | none => .error .stopIteration
        | some d => .ok d
      else
        .ok (find_date_range_union (accounts.map (fun a => a.months.map Prod.fst)))
    match datesOpt with
    | .error e => .error e
    | .ok dates =>
      match categorizeAccounts cfgPath rules mfn dates accounts with
      | .error e => .error e
      | .ok data => .ok ⟨data, dates, rules, limits⟩

theorem readConfigLine_reserved (st : ConfigState) (line c x r : String)
    (rest : List String) (hf : splitFields line = c :: x :: r :: rest)
    (hc : c = "Total" ∨ c = "Misc") :
    readConfigLine st line = Except.error PyErr.configFormatExit := by
  simp [readConfigLine, hf, hc]

theorem readConfigLine_ok3 (st : ConfigState) (line c x r : String) (q : ℚ)
    (hf : splitFields line = [c, x, r])
    (hc1 : c ≠ "Total") (hc2 : c ≠ "Misc") (hq : parseDecimal x = some q) :
    readConfigLine st line = Except.ok ⟨rulesInsert st.rules r c, dictInsert st.limits c q⟩ := by
  simp [readConfigLine, hf, hc1, hc2, hq]

theorem readConfigLine_okLong (st : ConfigState) (line c x r s : String)
    (rest : List String) (hf : splitFields line = c :: x :: r :: s :: rest)
    (hc1 : c ≠ "Total") (hc2 : c ≠ "Misc") :
    readConfigLine st line = Except.ok ⟨rulesInsert st.rules r c, st.limits⟩ := by
  simp only [readConfigLine, hf, List.get?]
  have : ¬(c = "Total" ∨ c = "Misc") := by
    rintro (h | h)
    · exact hc1 h
    · exact hc2 h
  simp only [this, if_false]
  have hlen : (c :: x :: r :: s :: rest).length ≠ 3 := by
    simp only [List.length_cons]
    omega
  simp [hlen]

theorem readConfigLine_badLimit (st : ConfigState) (line c x r : String)
    (hf : splitFields line = [c, x, r])
    (hc1 : c ≠ "Total") (hc2 : c ≠ "Misc") (hq : parseDecimal x = none) :
    readConfigLine st line = Except.error PyErr.valueError := by
  simp [readConfigLine, hf, hc1, hc2, hq]

theorem readConfigLine_short (st : ConfigState) (line : String)
    (hf : (splitFields line).get? 2 = none) :
    readConfigLine st line = Except.error PyErr.indexError := by
  rw [List.get?_eq_getElem?] at hf
  simp [readConfigLine, hf]

theorem readConfigLines_reserved_error (lines : List String) (st : ConfigState)
    (h3 : ∀ l ∈ lines, 3 ≤ (splitFields l).length)
    (hlim : ∀ l ∈ lines, (splitFields l).length = 3 →
      (parseDecimal ((splitFields l).getD 1 "")).isSome = true)
    (hres : ∃ l ∈ lines, (splitFields l).getD 0 "" = "Total" ∨ (splitFields l).getD 0 "" = "Misc") :
    readConfigLines st lines = Except.error PyErr.configFormatExit := by
  induction lines generalizing st with
  | nil => simp at hres
  | cons l ls ih =>
    have h3l : 3 ≤ (splitFields l).length := h3 l (by simp)
    obtain ⟨c, x, r, rest, hf⟩ :
        ∃ c x r rest, splitFields l = c :: x :: r :: rest := by
      cases hfl : splitFields l with
      | nil => rw [hfl] at h3l; simp at h3l
      | cons a t1 =>
        cases t1 with
        | nil => rw [hfl] at h3l; simp at h3l
        | cons b t2 =>
          cases t2 with
          | nil => rw [hfl] at h3l; simp at h3l
          | cons d t3 => exact ⟨a, b, d, t3, rfl⟩
    by_cases hc : c = "Total" ∨ c = "Misc"
    · simp only [readConfigLines, readConfigLine_reserved st l c x r rest hf hc]
    · push_neg at hc
      have hrest : ∃ l' ∈ ls,
          (splitFields l').getD 0 "" = "Total" ∨ (splitFields l').getD 0 "" = "Misc" := by
        obtain ⟨l', hl', hl'res⟩ := hres
        rcases List.mem_cons.mp hl' with h | h
        · exfalso
          subst h
          rw [hf] at hl'res
          simp only [List.getD, List.get?, Option.getD] at hl'res
          rcases hl'res with h | h
          · exact hc.1 h
          · exact hc.2 h
        · exact ⟨l', h, hl'res⟩
      have step : ∃ st', readConfigLine st l = Except.ok st' := by
        cases rest with
        | nil =>
          have hs := hlim l (by simp) (by rw [hf]; rfl)
          rw [hf] at hs
          simp only [List.getD, List.get?, Option.getD] at hs
          match hp : parseDecimal x with
          | some q =>
            exact ⟨_, readConfigLine_ok3 st l c x r q hf hc.1 hc.2 hp⟩
          | none => rw [hp] at hs; simp at hs
        | cons s t =>
          exact ⟨_, readConfigLine_okLong st l c x r s t hf hc.1 hc.2⟩
      obtain ⟨st', hst'⟩ := step
      simp only [readConfigLines, hst']
      exact ih st' (fun a ha => h3 a (List.mem_cons_of_mem _ ha))
        (fun a ha hh => hlim a (List.mem_cons_of_mem _ ha) hh) hrest

/-- C9: a configuration line whose category field equals a reserved label
("Total" or "Misc") causes analyzer construction to fail with the
controlled `ConfigFormatError` exit, for every account collection and
every matcher — the configuration is read before any account data is
categorized, so no account data is touched.  The side hypotheses say the
configuration is otherwise well formed (every line splits into at least
three fields, and three-field lines carry a parseable limit), so that no
earlier uncaught error preempts the reserved-label check. -/
theorem c9_reserved_label_fails_analyzer_construction
    (configLines : List String) (tl : ℚ) (mfn : String → String → Bool)
    (intersect : Bool) (cfgPath : String) (accounts : List Account)
    (h3 : ∀ l ∈ configLines, 3 ≤ (splitFields l).length)
    (hlim : ∀ l ∈ configLines, (splitFields l).length = 3 →
      (parseDecimal ((splitFields l).getD 1 "")).isSome = true)
    (hres : ∃ l ∈ configLines,
      (splitFields l).getD 0 "" = "Total" ∨ (splitFields l).getD 0 "" = "Misc") :
    analyzerInit configLines tl mfn intersect cfgPath accounts =
      Except.error PyErr.configFormatExit := by
  simp only [analyzerInit, read_config,
    readConfigLines_reserved_error configLines ⟨[], []⟩ h3 hlim hres]

theorem c9_reserved_label_fails_analyzer_construction_witness :
    (∀ l ∈ ["Total\t10\tX.*"], 3 ≤ (splitFields l).length) ∧
    (∃ l ∈ ["Total\t10\tX.*"],
      (splitFields l).getD 0 "" = "Total" ∨ (splitFields l).getD 0 "" = "Misc") ∧
    analyzerInit ["Total\t10\tX.*"] 5 (fun _ _ => false) true "config"
      [⟨"acct", [("2023_01", [(1, "A")])]⟩] = Except.error PyErr.configFormatExit :=
  ⟨by decide, by decide,
    c9_reserved_label_fails_analyzer_construction ["Total\t10\tX.*"] 5
      (fun _ _ => false) true "config" [⟨"acct", [("2023_01", [(1, "A")])]⟩]
      (by decide) (by decide) (by decide)⟩

/-- C4: a configuration line that cannot be split into at least the
category and regex fields does NOT reach the controlled
`ConfigFormatError` exit: indexing `line[2]` raises `IndexError`, which
the `except ValueError` clause never catches, so the loader crashes in an
uncontrolled way.  Evaluates the code at the failing input (a one-field
line) and records that this exit is distinct from the controlled one the
claim describes. -/
theorem c4_short_line_uncaught_index_error :
    read_config ["Food"] 0 = Except.error PyErr.indexError ∧
    PyErr.indexError ≠ PyErr.configFormatExit :=
  ⟨by decide, by decide⟩

/-- C3 (counterexample): a configuration line with exactly two fields,
category and regex, is not accepted by the rule-set loader — it crashes
with the uncaught `IndexError` from `line[2]`. -/
theorem c3_two_field_line_not_accepted :
    read_config ["Food\tFOO.*"] 0 = Except.error PyErr.indexError := by
  decide

/-- C3 (amended): a configuration line with exactly two fields is
rejected (uncaught index error from reading the regex at field index 2),
so "category followed directly by regex" is not an accepted format; a
line with at least three fields registers the rule for its category
(field 0) with the regex at field 2; only a line with exactly three
fields additionally registers a budget limit, parsed as a decimal from
field 1; a line with more than three fields registers no limit. -/
theorem c3_amended_config_line_field_contract (st : ConfigState) (line : String) :
    (∀ c r, splitFields line = [c, r] →
      readConfigLine st line = Except.error PyErr.indexError) ∧
    (∀ c x r rest, splitFields line = c :: x :: r :: rest →
      c ≠ "Total" → c ≠ "Misc" →
      ((rest = [] → ∀ q, parseDecimal x = some q →
        readConfigLine st line =
          Except.ok ⟨rulesInsert st.rules r c, dictInsert st.limits c q⟩) ∧
       (rest ≠ [] →
        readConfigLine st line = Except.ok ⟨rulesInsert st.rules r c, st.limits⟩))) := by
  constructor
  · intro c r hf
    exact readConfigLine_short st line (by rw [hf]; rfl)
  · intro c x r rest hf hc1 hc2
    constructor
    · intro hre q hq
      subst hre
      exact readConfigLine_ok3 st line c x r q hf hc1 hc2 hq
    · intro hre
      match rest, hre with
      | s :: t, _ =>
        exact readConfigLine_okLong st line c x r s t hf hc1 hc2

theorem c3_amended_config_line_field_contract_witness :
    (splitFields "Food\tFOO.*" = ["Food", "FOO.*"] ∧
      readConfigLine ⟨[], []⟩ "Food\tFOO.*" = Except.error PyErr.indexError) ∧
    (splitFields "Food\t12.5\tFOO.*" = ["Food", "12.5", "FOO.*"] ∧
      readConfigLine ⟨[], []⟩ "Food\t12.5\tFOO.*" =
        Except.ok ⟨rulesInsert [] "FOO.*" "Food",
          dictInsert [] "Food" ((parseDecimal "12.5").getD 0)⟩) ∧
    (splitFields "Food\tx\tFOO.*\tnote" = ["Food", "x", "FOO.*", "note"] ∧
      readConfigLine ⟨[], []⟩ "Food\tx\tFOO.*\tnote" =
        Except.ok ⟨rulesInsert [] "FOO.*" "Food", []⟩) :=
  ⟨⟨by decide,
    (c3_amended_config_line_field_contract ⟨[], []⟩ "Food\tFOO.*").1 "Food" "FOO.*" (by decide)⟩,
   ⟨by decide,
    ((c3_amended_config_line_field_contract ⟨[], []⟩ "Food\t12.5\tFOO.*").2 "Food" "12.5" "FOO.*" []
      (by decide) (by decide) (by decide)).1 rfl ((parseDecimal "12.5").getD 0) rfl⟩,
   ⟨by decide,
    ((c3_amended_config_line_field_contract ⟨[], []⟩ "Food\tx\tFOO.*\tnote").2 "Food" "x" "FOO.*"
      ["note"] (by decide) (by decide) (by decide)).2 (by decide)⟩⟩

theorem auditLoop_chain (rest : List String) (ps : List (ℕ × ℕ)) (p0 : ℕ × ℕ)
    (h : rest.map extractYM = ps.map some) :
    auditLoop p0 rest =
      some (!decide (List.Chain' (fun p q => q = specNext p) (p0 :: ps))) := by
  induction rest generalizing p0 ps with
  | nil =>
    cases ps with
    | nil => simp [auditLoop]
    | cons q qs => simp at h
  | cons f fs ih =>
    cases ps with
    | nil => simp at h
    | cons p qs =>
      simp only [List.map_cons, List.cons.injEq] at h
      obtain ⟨hp, hrest⟩ := h
      simp only [auditLoop, hp]
      by_cases hne : p = specNext p0
      · subst hne
        rw [if_neg (by simp)]
        rw [ih qs (specNext p0) hrest]
        have hiff : List.Chain' (fun p q => q = specNext p) (specNext p0 :: qs) ↔
            List.Chain' (fun p q => q = specNext p) (p0 :: specNext p0 :: qs) := by
          rw [List.chain'_cons]
          simp
        rw [decide_eq_decide.mpr hiff]
      · rw [if_pos (by simpa using hne)]
        have hnot : ¬ List.Chain' (fun p q => q = specNext p) (p0 :: p :: qs) := by
          rw [List.chain'_cons]
          rintro ⟨h1, _⟩
          exact hne h1
        simp [hnot]

/-- C5: the missing-data audit returns `true` on an empty file list, and
otherwise walks the sorted list tracking the expected next month
(December rolls over to January of the next year), reporting `true`
exactly when some file's (year, month) differs from the month expected
after the previous file's — i.e. exactly when the extracted (year, month)
sequence is not a chain of month successors. -/
theorem c5_audit_missing_months (files : List String) (ps : List (ℕ × ℕ))
    (h : files.map extractYM = ps.map some) :
    audit_for_missing_data files =
      some (files.isEmpty ||
        !decide (List.Chain' (fun p q => q = specNext p) ps)) := by
  cases files with
  | nil =>
    cases ps with
    | nil => simp [audit_for_missing_data]
    | cons q qs => simp at h
  | cons f0 rest =>
    cases ps with
    | nil => simp at h
    | cons p0 qs =>
      simp only [List.map_cons, List.cons.injEq] at h
      obtain ⟨hp, hrest⟩ := h
      simp only [audit_for_missing_data, hp, List.isEmpty_cons, Bool.false_or]
      exact auditLoop_chain rest qs p0 hrest

theorem c5_audit_missing_months_witness :
    audit_for_missing_data [] = some true ∧
    audit_for_missing_data ["2023_01", "2023_02", "2023_04"] = some true ∧
    audit_for_missing_data ["2023_01", "2023_02", "2023_03"] = some false := by
  refine ⟨?_, ?_, ?_⟩
  · have h := c5_audit_missing_months [] [] (by decide)
    simpa using h
  · have h := c5_audit_missing_months ["2023_01", "2023_02", "2023_04"]
      [(2023, 1), (2023, 2), (2023, 4)] (by decide)
    simpa using h
  · have h := c5_audit_missing_months ["2023_01", "2023_02", "2023_03"]
      [(2023, 1), (2023, 2), (2023, 3)] (by decide)
    simpa using h

/-- C7: for a filename containing exactly two positive-integer runs,
with values `Y` and `M` where `1 ≤ M ≤ 12`, the date extractor derives
the MonthKey string equal to the spec's canonical form — `Y`, an
underscore, and `M` zero-padded to two digits. -/
theorem c7_extract_dates_canonical (f a b : String) (Y M : ℕ)
    (hruns : findIntRuns f = [a, b]) (hY : runToNat a = Y) (hM : runToNat b = M)
    (h1 : 1 ≤ M) (h12 : M ≤ 12) :
    extract_dates [f] = some [specCanonicalMonthKey Y M] := by
  simp only [extract_dates, List.mapM_cons, List.mapM_nil, extractYM, hruns, hY, hM]
  rfl

theorem c7_extract_dates_canonical_witness :
    findIntRuns "statement_2023_07.csv" = ["2023", "7"] ∧
    runToNat "2023" = 2023 ∧ runToNat "7" = 7 ∧ 1 ≤ 7 ∧ 7 ≤ 12 ∧
    extract_dates ["statement_2023_07.csv"] = some [specCanonicalMonthKey 2023 7] :=
  ⟨by decide, by decide, by decide, by decide, by decide,
    c7_extract_dates_canonical "statement_2023_07.csv" "2023" "7" 2023 7
      (by decide) (by decide) (by decide) (by decide) (by decide)⟩

/-- C8 (counterexample): the filename `2023_13` is accepted by the
FileSet Resolver without any fatal error — the audit validates only that
exactly two integer runs are present — yet the derived MonthKey has month
component 13, outside the data model's 1..12 range. -/
theorem c8_month_range_not_validated :
    extractYM "2023_13" = some (2023, 13) ∧
    audit_for_missing_data ["2023_13"] = some false ∧
    extract_dates ["2023_13"] = some ["2023_13"] ∧
    ¬(13 ≤ 12) := by
  refine ⟨by decide, by decide, by decide, by decide⟩

/-- C8 (amended): the resolver performs no range validation on the month:
for a filename with exactly two integer runs it derives (year, month) as
the runs' numeric values, and the derived MonthKey satisfies the
month ∈ 1..12 invariant exactly when the second run's value lies in
1..12. -/
theorem c8_amended_month_unvalidated (f a b : String)
    (hruns : findIntRuns f = [a, b]) :
    extractYM f = some (runToNat a, runToNat b) ∧
    (1 ≤ runToNat b ∧ runToNat b ≤ 12 ↔
      ∃ y m, extractYM f = some (y, m) ∧ 1 ≤ m ∧ m ≤ 12) := by
  have hym : extractYM f = some (runToNat a, runToNat b) := by
    simp [extractYM, hruns]
  refine ⟨hym, ?_, ?_⟩
  · rintro ⟨h1, h2⟩
    exact ⟨runToNat a, runToNat b, hym, h1, h2⟩
  · rintro ⟨y, m, hym', h1, h2⟩
    rw [hym] at hym'
    obtain ⟨hy, hm⟩ := Prod.mk.injEq .. ▸ (Option.some.injEq .. ▸ hym')
    constructor
    · rw [hm]; exact h1
    · rw [hm]; exact h2

theorem mem_foldl_filter (rest : List (List String)) (s : List String) (d : String) :
    (d ∈ rest.foldl (fun s acc => s.filter (fun x => decide (x ∈ acc))) s ↔
      d ∈ s ∧ ∀ acc ∈ rest, d ∈ acc) := by
  induction rest generalizing s with
  | nil => simp
  | cons a t ih =>
    simp only [List.foldl_cons]
    rw [ih]
    constructor
    · rintro ⟨hmem, hall⟩
      rw [List.mem_filter] at hmem
      refine ⟨hmem.1, ?_⟩
      intro acc hacc
      rcases List.mem_cons.mp hacc with h | h
      · subst h
        simpa using hmem.2
      · exact hall acc h
    · rintro ⟨hmem, hall⟩
      refine ⟨List.mem_filter.mpr ⟨hmem, by simpa using hall a (by simp)⟩, ?_⟩
      intro acc hacc
      exact hall acc (List.mem_cons_of_mem _ hacc)

theorem nodup_foldl_filter (rest : List (List String)) (s : List String)
    (hs : s.Nodup) :
    (rest.foldl (fun s acc => s.filter (fun x => decide (x ∈ acc))) s).Nodup := by
  induction rest generalizing s with
  | nil => exact hs
  | cons a t ih =>
    simp only [List.foldl_cons]
    exact ih _ (hs.filter _)

theorem mem_foldl_append (l : List (List String)) (init : List String) (d : String) :
    (d ∈ l.foldl (fun s acc => s ++ acc) init ↔ d ∈ init ∨ ∃ a ∈ l, d ∈ a) := by
  induction l generalizing init with
  | nil => simp
  | cons a t ih =>
    simp only [List.foldl_cons]
    rw [ih]
    simp only [List.mem_append, List.mem_cons]
    constructor
    · rintro (⟨h | h⟩ | ⟨b, hb, hd⟩)
      · exact Or.inl h
      · exact Or.inr ⟨a, Or.inl rfl, h⟩
      · exact Or.inr ⟨b, Or.inr hb, hd⟩
    · rintro (h | ⟨b, hb | hb, hd⟩)
      · exact Or.inl (Or.inl h)
      · subst hb
        exact Or.inl (Or.inr hd)
      · exact Or.inr ⟨b, hb, hd⟩

/-- C6: for a nonempty account collection, intersection-mode date
reconciliation returns a sorted (ascending, by code-point order),
duplicate-free list containing a month iff that month occurs in every
account's date sequence; union-mode reconciliation returns a sorted,
duplicate-free list containing a month iff it occurs in at least one
account's date sequence. -/
theorem c6_date_reconciliation_semantics (accounts : List (List String))
    (hne : accounts ≠ []) :
    (∃ l, find_date_range_intersection accounts = some l ∧
      List.Sorted strLe l ∧ l.Nodup ∧
      (∀ d, d ∈ l ↔ ∀ a ∈ accounts, d ∈ a)) ∧
    (List.Sorted strLe (find_date_range_union accounts) ∧
      (find_date_range_union accounts).Nodup ∧
      (∀ d, d ∈ find_date_range_union accounts ↔ ∃ a ∈ accounts, d ∈ a)) := by
  constructor
  · match accounts, hne with
    | a :: rest, _ =>
      refine ⟨_, rfl, List.sorted_insertionSort strLe _, ?_, ?_⟩
      · rw [(List.perm_insertionSort strLe _).nodup_iff]
        exact nodup_foldl_filter rest a.dedup a.nodup_dedup
      · intro d
        rw [(List.perm_insertionSort strLe _).mem_iff, mem_foldl_filter,
          List.mem_dedup]
        constructor
        · rintro ⟨hd, hall⟩
          intro acc hacc
          rcases List.mem_cons.mp hacc with h | h
          · subst h; exact hd
          · exact hall acc h
        · intro hall
          exact ⟨hall a (by simp), fun acc hacc => hall acc (List.mem_cons_of_mem _ hacc)⟩
  · refine ⟨List.sorted_insertionSort strLe _, ?_, ?_⟩
    · rw [find_date_range_union, (List.perm_insertionSort strLe _).nodup_iff]
      exact List.nodup_dedup _
    · intro d
      rw [find_date_range_union, (List.perm_insertionSort strLe _).mem_iff,
        List.mem_dedup, mem_foldl_append]
      simp

/-- C10: intersection-mode reconciliation is total on nonempty account
collections (its failure branch is unreachable there); on zero accounts
it fails (the `next()` call raises `StopIteration`, modelled `none`),
while union-mode reconciliation returns the empty date axis. -/
theorem c10_reconciler_empty_asymmetry :
    (∀ accounts : List (List String), accounts ≠ [] →
      ∃ l, find_date_range_intersection accounts = some l) ∧
    find_date_range_intersection [] = none ∧
    find_date_range_union [] = [] := by
  refine ⟨?_, rfl, rfl⟩
  intro accounts hne
  match accounts, hne with
  | a :: rest, _ => exact ⟨_, rfl⟩

theorem c10_reconciler_empty_asymmetry_witness :
    ([["2023_01"]] : List (List String)) ≠ [] ∧
    (∃ l, find_date_range_intersection [["2023_01"]] = some l) ∧
    find_date_range_intersection [] = none ∧
    find_date_range_union [] = [] :=
  ⟨by decide, c10_reconciler_empty_asymmetry.1 [["2023_01"]] (by decide),
    c10_reconciler_empty_asymmetry.2.1, c10_reconciler_empty_asymmetry.2.2⟩

theorem c6_date_reconciliation_semantics_witness :
    ([["2023_01", "2023_02"], ["2023_02", "2023_03"]] : List (List String)) ≠ [] ∧
    find_date_range_intersection [["2023_01", "2023_02"], ["2023_02", "2023_03"]] =
      some ["2023_02"] ∧
    find_date_range_union [["2023_01", "2023_02"], ["2023_02", "2023_03"]] =
      ["2023_01", "2023_02", "2023_03"] ∧
    ((∃ l, find_date_range_intersection [["2023_01", "2023_02"], ["2023_02", "2023_03"]] =
        some l ∧
      List.Sorted strLe l ∧ l.Nodup ∧
      (∀ d, d ∈ l ↔ ∀ a ∈ [["2023_01", "2023_02"], ["2023_02", "2023_03"]], d ∈ a)) ∧
     (List.Sorted strLe
        (find_date_range_union [["2023_01", "2023_02"], ["2023_02", "2023_03"]]) ∧
      (find_date_range_union [["2023_01", "2023_02"], ["2023_02", "2023_03"]]).Nodup ∧
      (∀ d, d ∈ find_date_range_union [["2023_01", "2023_02"], ["2023_02", "2023_03"]] ↔
        ∃ a ∈ [["2023_01", "2023_02"], ["2023_02", "2023_03"]], d ∈ a))) :=
  ⟨by decide, by decide, by decide,
    c6_date_reconciliation_semantics [["2023_01", "2023_02"], ["2023_02", "2023_03"]]
      (by decide)⟩

theorem c8_amended_month_unvalidated_witness :
    findIntRuns "2023_05" = ["2023", "5"] ∧
    extractYM "2023_05" = some (runToNat "2023", runToNat "5") ∧
    (1 ≤ runToNat "5" ∧ runToNat "5" ≤ 12 ↔
      ∃ y m, extractYM "2023_05" = some (y, m) ∧ 1 ≤ m ∧ m ≤ 12) :=
  ⟨by decide, (c8_amended_month_unvalidated "2023_05" "2023" "5" (by decide)).1,
    (c8_amended_month_unvalidated "2023_05" "2023" "5" (by decide)).2⟩

theorem head?_filter_eq_find? {α} (p : α → Bool) (l : List α) :
    (l.filter p).head? = l.find? p := by
  induction l with
  | nil => rfl
  | cons a t ih =>
    by_cases h : p a
    · simp [List.filter_cons, List.find?_cons, h]
    · simp [List.filter_cons, List.find?_cons, h, ih]

theorem getD_set (l : List ℚ) (i m : ℕ) (v : ℚ) :
    (l.set i v).getD m 0 = if i = m ∧ i < l.length then v else l.getD m 0 := by
  induction l generalizing i m with
  | nil => simp
  | cons a t ih =>
    cases i with
    | zero =>
      cases m with
      | zero => simp
      | succ m => simp
    | succ i =>
      cases m with
      | zero => simp
      | succ m =>
        simp only [List.set_cons_succ, List.getD_cons_succ, ih, List.length_cons]
        by_cases hc : i = m ∧ i < t.length
        · rw [if_pos hc, if_pos ⟨by omega, by omega⟩]
        · rw [if_neg hc, if_neg (by omega)]

/-- The category list upon which C1's sum ranges: the distinct user
categories and "Misc". -/
def userCategories (rules : List Rule) : List String :=
  (rules.map (fun r => r.cat)).dedup

/-- Sum of the bucket entries at month index `m` over a list of category
labels. -/
def bucketSum (b : String → List ℚ) (cs : List String) (m : ℕ) : ℚ :=
  (cs.map (fun c => (b c).getD m 0)).sum

theorem addAt_ne (b : String → List ℚ) (c : String) (i : ℕ) (e : ℚ) (x : String)
    (hx : x ≠ c) : addAt b c i e x = b x := by
  simp [addAt, hx]

theorem addAt_self (b : String → List ℚ) (c : String) (i : ℕ) (e : ℚ) :
    addAt b c i e c = (b c).set i ((b c).getD i 0 + e) := by
  simp [addAt]

theorem length_addAt (b : String → List ℚ) (c : String) (i : ℕ) (e : ℚ) (x : String) :
    ((addAt b c i e) x).length = (b x).length := by
  by_cases hx : x = c
  · subst hx
    simp [addAt, List.length_set]
  · simp [addAt, hx]

theorem map_sum_update (cs : List String) (g g' : String → ℚ) (c : String) (δ : ℚ)
    (hn : cs.Nodup) (hc : c ∈ cs)
    (hado : ∀ x ∈ cs, x ≠ c → g' x = g x) (hgc : g' c = g c + δ) :
    (cs.map g').sum = (cs.map g).sum + δ := by
  induction cs with
  | nil => simp at hc
  | cons a t ih =>
    by_cases hac : a = c
    · subst hac
      have hnotin : a ∉ t := (List.nodup_cons.mp hn).1
      have ht : t.map g' = t.map g :=
        List.map_congr_left (fun x hx =>
          hado x (List.mem_cons_of_mem _ hx) (fun hxa => hnotin (hxa ▸ hx)))
      simp only [List.map_cons, List.sum_cons, hgc, ht]
      ring
    · have hct : c ∈ t := by
        rcases List.mem_cons.mp hc with h | h
        · exact absurd h.symm hac
        · exact h
      have hga : g' a = g a := hado a (by simp) hac
      have := ih (List.nodup_cons.mp hn).2 hct
        (fun x hx hxc => hado x (List.mem_cons_of_mem _ hx) hxc)
      simp only [List.map_cons, List.sum_cons, hga, this]
      ring

theorem initBuckets_foldl (n : ℕ) (cs : List String) (b : String → List ℚ) (x : String) :
    (cs.foldl (fun b c => fun y => if y = c then List.replicate n 0 else b y) b) x =
    if x ∈ cs then List.replicate n 0 else b x := by
  induction cs generalizing b with
  | nil => simp
  | cons c t ih =>
    simp only [List.foldl_cons]
    rw [ih]
    by_cases hxt : x ∈ t
    · simp [hxt]
    · by_cases hxc : x = c
      · simp [hxt, hxc]
      · simp [hxt, hxc]

theorem initBuckets_eq (cs : List String) (n : ℕ) (x : String) :
    initBuckets cs n x = if x ∈ cs then List.replicate n 0 else [] :=
  initBuckets_foldl n cs (fun _ => []) x

theorem getD_replicate_zero (n m : ℕ) : (List.replicate n (0 : ℚ)).getD m 0 = 0 := by
  induction n generalizing m with
  | zero => simp
  | succ n ih =>
    cases m with
    | zero => simp [List.replicate]
    | succ m => simp [List.replicate, ih]

/-- The invariant C1 needs of the `category_expenses` mapping: every
category of the analyzer has a bucket of the date axis's length, and at
every month index the user-category buckets plus "Misc" sum to the
"Total" bucket. -/
def catInv (rules : List Rule) (n : ℕ) (b : String → List ℚ) : Prop :=
  (∀ c ∈ analyzerCategories rules, (b c).length = n) ∧
  (∀ m, bucketSum b (userCategories rules ++ ["Misc"]) m = (b "Total").getD m 0)

theorem userCategories_subset_analyzer (rules : List Rule) :
    ∀ c ∈ userCategories rules ++ ["Misc"], c ∈ analyzerCategories rules := by
  intro c hc
  rcases List.mem_append.mp hc with h | h
  · exact List.mem_append.mpr (Or.inl (List.mem_dedup.mp h))
  · simp only [List.mem_singleton] at h
    subst h
    simp [analyzerCategories]

theorem total_mem_analyzer (rules : List Rule) :
    "Total" ∈ analyzerCategories rules := by
  simp [analyzerCategories]

theorem catInv_init (rules : List Rule) (n : ℕ) :
    catInv rules n (initBuckets (analyzerCategories rules) n) := by
  constructor
  · intro c hc
    rw [initBuckets_eq, if_pos hc, List.length_replicate]
  · intro m
    have hz : ∀ c ∈ userCategories rules ++ ["Misc"],
        (initBuckets (analyzerCategories rules) n c).getD m 0 = 0 := by
      intro c hc
      rw [initBuckets_eq, if_pos (userCategories_subset_analyzer rules c hc),
        getD_replicate_zero]
    have hT : (initBuckets (analyzerCategories rules) n "Total").getD m 0 = 0 := by
      rw [initBuckets_eq, if_pos (total_mem_analyzer rules), getD_replicate_zero]
    rw [hT]
    apply List.sum_eq_zero
    intro x hx
    obtain ⟨c, hc, hcx⟩ := List.mem_map.mp hx
    rw [← hcx]
    exact hz c hc

theorem misc_total_not_user (rules : List Rule)
    (hr : ∀ r ∈ rules, r.cat ≠ "Total" ∧ r.cat ≠ "Misc") :
    (userCategories rules ++ ["Misc"]).Nodup ∧
    "Total" ∉ userCategories rules ++ ["Misc"] := by
  have hmu : "Misc" ∉ userCategories rules := by
    intro h
    obtain ⟨r, hrm, hrc⟩ := List.mem_map.mp (List.mem_dedup.mp h)
    exact (hr r hrm).2 hrc
  have htu : "Total" ∉ userCategories rules := by
    intro h
    obtain ⟨r, hrm, hrc⟩ := List.mem_map.mp (List.mem_dedup.mp h)
    exact (hr r hrm).1 hrc
  constructor
  · rw [List.nodup_append]
    refine ⟨List.nodup_dedup _, List.nodup_singleton _, ?_⟩
    intro x hx hxm
    rw [List.mem_singleton] at hxm
    subst hxm
    exact hmu hx
  · intro h
    rcases List.mem_append.mp h with h | h
    · exact htu h
    · simp at h

theorem catInv_addBoth (rules : List Rule) (n : ℕ) (b : String → List ℚ)
    (hInv : catInv rules n b) (c : String) (i : ℕ) (e : ℚ)
    (hcU : c ∈ userCategories rules ++ ["Misc"]) (hcT : c ≠ "Total")
    (hr : ∀ r ∈ rules, r.cat ≠ "Total" ∧ r.cat ≠ "Misc") :
    catInv rules n (addAt (addAt b c i e) "Total" i e) := by
  obtain ⟨hlen, hsum⟩ := hInv
  obtain ⟨hnodup, hTnot⟩ := misc_total_not_user rules hr
  have hcA : c ∈ analyzerCategories rules := userCategories_subset_analyzer rules c hcU
  have hlc : (b c).length = n := hlen c hcA
  have hlT : (b "Total").length = n := hlen "Total" (total_mem_analyzer rules)
  constructor
  · intro x hx
    rw [length_addAt, length_addAt]
    exact hlen x hx
  · intro m
    have hb2T : (addAt (addAt b c i e) "Total" i e) "Total" =
        (b "Total").set i ((b "Total").getD i 0 + e) := by
      rw [addAt_self, addAt_ne _ _ _ _ _ (fun h => hcT h.symm)]
    have hTgetD : ((addAt (addAt b c i e) "Total" i e) "Total").getD m 0 =
        (b "Total").getD m 0 + (if i = m ∧ i < n then e else 0) := by
      rw [hb2T, getD_set, hlT]
      by_cases hcond : i = m ∧ i < n
      · rw [if_pos hcond, if_pos hcond, hcond.1]
      · rw [if_neg hcond, if_neg hcond, add_zero]
    have hLHS : bucketSum (addAt (addAt b c i e) "Total" i e)
        (userCategories rules ++ ["Misc"]) m =
        bucketSum b (userCategories rules ++ ["Misc"]) m +
          (if i = m ∧ i < n then e else 0) := by
      apply map_sum_update _ _ _ c _ hnodup hcU
      · intro x hx hxc
        have hxT : x ≠ "Total" := fun h => hTnot (h ▸ hx)
        rw [addAt_ne _ _ _ _ _ hxT, addAt_ne _ _ _ _ _ hxc]
      · rw [addAt_ne _ _ _ _ _ hcT, addAt_self, getD_set, hlc]
        by_cases hcond : i = m ∧ i < n
        · rw [if_pos hcond, if_pos hcond, hcond.1]
        · rw [if_neg hcond, if_neg hcond, add_zero]
    rw [hLHS, hTgetD, hsum m]

theorem stepRecord_buckets (cfgPath : String) (rules : List Rule)
    (mfn : String → String → Bool) (i : ℕ) (st : CatState) (rec : ℚ × String) :
    (stepRecord cfgPath rules mfn i st rec).buckets =
      match classify rules mfn rec.2 with
      | [] => addAt (addAt st.buckets "Misc" i rec.1) "Total" i rec.1
      | c :: _ => addAt (addAt st.buckets c i rec.1) "Total" i rec.1 := by
  cases hcl : classify rules mfn rec.2 with
  | nil => simp [stepRecord, hcl]
  | cons c cs =>
    simp only [stepRecord, hcl]
    split
    · rfl
    · rfl

theorem catInv_stepRecord (cfgPath : String) (rules : List Rule)
    (mfn : String → String → Bool) (n i : ℕ) (st : CatState) (rec : ℚ × String)
    (hr : ∀ r ∈ rules, r.cat ≠ "Total" ∧ r.cat ≠ "Misc")
    (hInv : catInv rules n st.buckets) :
    catInv rules n (stepRecord cfgPath rules mfn i st rec).buckets := by
  rw [stepRecord_buckets]
  cases hcl : classify rules mfn rec.2 with
  | nil =>
    exact catInv_addBoth rules n st.buckets hInv "Misc" i rec.1 (by simp) (by decide) hr
  | cons c cs =>
    have hcc : c ∈ classify rules mfn rec.2 := by rw [hcl]; simp
    have hcm : c ∈ rules.map (fun r => r.cat) := by
      unfold classify at hcc
      obtain ⟨r, hrf, hrc⟩ := List.mem_map.mp hcc
      exact List.mem_map.mpr ⟨r, List.mem_of_mem_filter hrf, hrc⟩
    have hcu : c ∈ userCategories rules ++ ["Misc"] :=
      List.mem_append.mpr (Or.inl (List.mem_dedup.mpr hcm))
    have hcT : c ≠ "Total" := by
      obtain ⟨r, hrm, hrc⟩ := List.mem_map.mp hcm
      exact hrc ▸ (hr r hrm).1
    exact catInv_addBoth rules n st.buckets hInv c i rec.1 hcu hcT hr

theorem catInv_foldl_records (cfgPath : String) (rules : List Rule)
    (mfn : String → String → Bool) (n i : ℕ) (recs : List (ℚ × String))
    (st : CatState)
    (hr : ∀ r ∈ rules, r.cat ≠ "Total" ∧ r.cat ≠ "Misc")
    (hInv : catInv rules n st.buckets) :
    catInv rules n ((recs.foldl (stepRecord cfgPath rules mfn i) st).buckets) := by
  induction recs generalizing st with
  | nil => exact hInv
  | cons a t ih =>
    exact ih _ (catInv_stepRecord cfgPath rules mfn n i st a hr hInv)

theorem catInv_stepMonths (cfgPath : String) (rules : List Rule)
    (mfn : String → String → Bool) (dates : List String) (n : ℕ)
    (months : List (String × List (ℚ × String))) (dIdx : ℕ) (st st' : CatState)
    (hr : ∀ r ∈ rules, r.cat ≠ "Total" ∧ r.cat ≠ "Misc")
    (hInv : catInv rules n st.buckets)
    (h : stepMonths cfgPath rules mfn dates months dIdx st = some st') :
    catInv rules n st'.buckets := by
  induction months generalizing dIdx st with
  | nil =>
    simp only [stepMonths, Option.some.injEq] at h
    rw [← h]
    exact hInv
  | cons mo rest ih =>
    obtain ⟨date, recs⟩ := mo
    simp only [stepMonths] at h
    by_cases hd : date ∈ dates
    · rw [if_pos hd] at h
      cases hff : findFrom dates date dIdx with
      | none =>
        rw [hff] at h
        simp at h
      | some j =>
        rw [hff] at h
        exact ih j _ (catInv_foldl_records cfgPath rules mfn n j recs st hr hInv) h
    · rw [if_neg hd] at h
      exact ih dIdx st hInv h

/-- C1: for every account run through `categorize_history` without a
fatal error, at every month index the sum of the user-category buckets
plus the "Misc" bucket equals the "Total" bucket — every record was added
to exactly one of the user/Misc buckets and to "Total" at the same index.
The hypothesis that no rule uses a reserved label is guaranteed by
`read_config` for any loaded rule set. -/
theorem c1_category_exclusivity_invariant (cfgPath : String) (rules : List Rule)
    (mfn : String → String → Bool) (dates : List String)
    (account : List (String × List (ℚ × String))) (res : CatState)
    (hr : ∀ r ∈ rules, r.cat ≠ "Total" ∧ r.cat ≠ "Misc")
    (hres : categorize_history cfgPath rules mfn dates account = some res) :
    ∀ m, bucketSum res.buckets (userCategories rules ++ ["Misc"]) m =
      (res.buckets "Total").getD m 0 := by
  have hInv := catInv_stepMonths cfgPath rules mfn dates dates.length account 0
    ⟨initBuckets (analyzerCategories rules) dates.length, [], []⟩ res hr
    (catInv_init rules dates.length) hres
  exact hInv.2

/-- C2: per expense record, when the location matches more than one rule
the amount is assigned to exactly one bucket — the first matched category
in rule order (the matched-category list's head is the category of the
first matching rule in the ordered rule collection) — plus "Total", one
collision entry naming the configuration identifier, the location and
every matched category is appended, and the uncategorized set is
untouched; when the location matches no rule the amount goes to "Misc"
plus "Total", the location is recorded in the deduplicated uncategorized
set, and the collision report is untouched. -/
theorem c2_collision_first_match_and_misc (cfgPath : String) (rules : List Rule)
    (mfn : String → String → Bool) (i : ℕ) (st : CatState) (e : ℚ) (loc : String)
    (cats : List String) (hcats : cats = classify rules mfn loc) :
    (cats.head? = (rules.find? (fun r => mfn r.pat loc)).map (fun r => r.cat)) ∧
    (∀ c cs, cats = c :: cs → cs ≠ [] →
      ((stepRecord cfgPath rules mfn i st (e, loc)).collisions =
        st.collisions ++ [⟨cfgPath, loc, cats⟩] ∧
       (stepRecord cfgPath rules mfn i st (e, loc)).uncat = st.uncat ∧
       (stepRecord cfgPath rules mfn i st (e, loc)).buckets =
         addAt (addAt st.buckets c i e) "Total" i e ∧
       (∀ x, x ≠ c → x ≠ "Total" →
         (stepRecord cfgPath rules mfn i st (e, loc)).buckets x = st.buckets x))) ∧
    (cats = [] →
      ((stepRecord cfgPath rules mfn i st (e, loc)).collisions = st.collisions ∧
       (stepRecord cfgPath rules mfn i st (e, loc)).uncat = List.insert loc st.uncat ∧
       loc ∈ (stepRecord cfgPath rules mfn i st (e, loc)).uncat ∧
       (st.uncat.Nodup → (stepRecord cfgPath rules mfn i st (e, loc)).uncat.Nodup) ∧
       (stepRecord cfgPath rules mfn i st (e, loc)).buckets =
         addAt (addAt st.buckets "Misc" i e) "Total" i e)) := by
  refine ⟨?_, ?_, ?_⟩
  · rw [hcats]
    unfold classify
    rw [List.head?_map, head?_filter_eq_find?]
  · intro c cs hc hcs
    have hc2 : classify rules mfn loc = c :: cs := by rw [← hcats]; exact hc
    have hpos : 0 < cs.length := List.length_pos.mpr hcs
    have hbk' : (stepRecord cfgPath rules mfn i st (e, loc)).buckets =
        addAt (addAt st.buckets c i e) "Total" i e := by
      have hbk := stepRecord_buckets cfgPath rules mfn i st (e, loc)
      rw [hc2] at hbk
      exact hbk
    refine ⟨?_, ?_, hbk', ?_⟩
    · rw [hc]
      simp [stepRecord, hc2, hpos]
    · simp [stepRecord, hc2, hpos]
    · intro x hxc hxT
      rw [hbk', addAt_ne _ _ _ _ _ hxT, addAt_ne _ _ _ _ _ hxc]
  · intro hc
    have hc2 : classify rules mfn loc = [] := by rw [← hcats]; exact hc
    have hbk' : (stepRecord cfgPath rules mfn i st (e, loc)).buckets =
        addAt (addAt st.buckets "Misc" i e) "Total" i e := by
      have hbk := stepRecord_buckets cfgPath rules mfn i st (e, loc)
      rw [hc2] at hbk
      exact hbk
    have hunc : (stepRecord cfgPath rules mfn i st (e, loc)).uncat =
        List.insert loc st.uncat := by
      simp [stepRecord, hc2]
    refine ⟨by simp [stepRecord, hc2], hunc, ?_, ?_, hbk'⟩
    · rw [hunc]
      exact List.mem_insert_self loc st.uncat
    · intro hnd
      rw [hunc]
      exact hnd.insert

/-- Example rule set of the spec's collision test: `FOO.*` maps to "Food"
and `.*BAR` maps to "Bar". -/
def exRules : List Rule := [⟨"FOO", "Food"⟩, ⟨"BAR", "Bar"⟩]

/-- Concrete matcher used in the examples: `re.search` of `FOO.*`
(resp. `.*BAR`) on a location succeeds exactly when the location contains
`FOO` (resp. `BAR`), i.e. when the pattern's distinguishing literal is an
infix of the location. -/
def exMatch : String → String → Bool := fun p loc => decide (p.data <:+: loc.data)

/-- A one-month categorization state with zeroed buckets, as examples
start from. -/
def exState : CatState := ⟨fun _ => List.replicate 1 0, [], []⟩

/-- Example account: one month with one categorizable and one
uncategorizable expense. -/
def c1ExAccount : List (String × List (ℚ × String)) :=
  [("2023_01", [(5, "FOOMART"), (3, "XYZ")])]

/-- The categorization result of the C1 example run. -/
def c1ExRes : CatState :=
  (categorize_history "config" exRules exMatch ["2023_01"] c1ExAccount).getD ⟨fun _ => [], [], []⟩

theorem c1_category_exclusivity_invariant_witness :
    (∀ r ∈ exRules, r.cat ≠ "Total" ∧ r.cat ≠ "Misc") ∧
    categorize_history "config" exRules exMatch ["2023_01"] c1ExAccount = some c1ExRes ∧
    bucketSum c1ExRes.buckets (userCategories exRules ++ ["Misc"]) 0 =
      (c1ExRes.buckets "Total").getD 0 0 :=
  ⟨by decide, rfl,
    c1_category_exclusivity_invariant "config" exRules exMatch ["2023_01"] c1ExAccount c1ExRes
      (by decide) rfl 0⟩

theorem c2_collision_first_match_and_misc_witness :
    (classify exRules exMatch "FOOBAR" = ["Food", "Bar"]) ∧
    ((["Food", "Bar"] : List String).head? =
      (exRules.find? (fun r => exMatch r.pat "FOOBAR")).map (fun r => r.cat)) ∧
    ((stepRecord "config" exRules exMatch 0 exState (5, "FOOBAR")).collisions =
      exState.collisions ++ [⟨"config", "FOOBAR", ["Food", "Bar"]⟩] ∧
     (stepRecord "config" exRules exMatch 0 exState (5, "FOOBAR")).uncat = exState.uncat ∧
     (stepRecord "config" exRules exMatch 0 exState (5, "FOOBAR")).buckets =
       addAt (addAt exState.buckets "Food" 0 5) "Total" 0 5) ∧
    (classify exRules exMatch "ZZZ" = []) ∧
    ((stepRecord "config" exRules exMatch 0 exState (3, "ZZZ")).collisions =
      exState.collisions ∧
     (stepRecord "config" exRules exMatch 0 exState (3, "ZZZ")).uncat =
       List.insert "ZZZ" exState.uncat ∧
     "ZZZ" ∈ (stepRecord "config" exRules exMatch 0 exState (3, "ZZZ")).uncat ∧
     (stepRecord "config" exRules exMatch 0 exState (3, "ZZZ")).buckets =
       addAt (addAt exState.buckets "Misc" 0 3) "Total" 0 3) := by
  have hA := c2_collision_first_match_and_misc "config" exRules exMatch 0 exState 5 "FOOBAR"
    ["Food", "Bar"] (by decide)
  have hB := c2_collision_first_match_and_misc "config" exRules exMatch 0 exState 3 "ZZZ"
    [] (by decide)
  have hA2 := hA.2.1 "Food" ["Bar"] rfl (by decide)
  have hB3 := hB.2.2 rfl
  exact ⟨by decide, hA.1, ⟨hA2.1, hA2.2.1, hA2.2.2.1⟩, by decide,
    ⟨hB3.1, hB3.2.1, hB3.2.2.1, hB3.2.2.2.2⟩⟩
